import Mathlib

/-!
Shallow embedding of the schema-migration engine of the Job-Application-Tracker
repository (`src/database/migrations.ts`, class `MigrationRunner`), together with
proofs about the claims on its specification.

Modelling conventions:
* The SQLite database handle is modelled by `Database σ`: the migrations ledger
  table (its existence flag and its rows in insertion order) plus an abstract
  user schema of type `σ`.  Executing an operator-authored SQL script against
  the user schema is the abstract function `Env.exec`; SHA-256 hashing is the
  abstract function `Env.sha256` (both are opaque collaborators of the engine,
  exactly as the driver and `crypto` are in the source).
* `better-sqlite3`'s `db.transaction(fn)` runs `fn` inside BEGIN/COMMIT and rolls
  the transaction back when `fn` throws; each transactional block is therefore
  modelled as an atomic step that either produces the fully-updated state or
  leaves the state untouched and reports the error.
* Thrown JS exceptions are modelled with `Except String`; the database state is
  returned alongside, since the database outlives an exception.
* The filesystem is `FS`: the migrations directory (`none` when the directory
  does not exist, as `fs.existsSync` reports) and the `rollback` subdirectory.
* Ledger columns `id` (surrogate autoincrement key), `applied_at` (wall-clock
  timestamp) and `execution_time_ms` (wall-clock duration) are never read back
  by the engine's control flow — they are display-only — and wall-clock time is
  not modelled, so a ledger row keeps the three columns the engine consults:
  `version`, `name`, `checksum`.
-/

/-- A file: its name within its directory, and its exact text content. -/
structure ScriptFile where
  filename : String
  content : String
deriving DecidableEq

/-- The migrations directory on disk.  `files = none` models a missing
migrations directory (`fs.existsSync(this.migrationsDir)` false); otherwise the
list holds the directory's entries in filesystem enumeration order.
`rollbackFiles` holds the entries of the `rollback` subdirectory. -/
structure FS where
  files : Option (List ScriptFile)
  rollbackFiles : List ScriptFile
deriving DecidableEq

/-- A row of the `migrations` ledger table (interface `Migration` in the
source).  The display-only columns `id`, `applied_at` and `execution_time_ms`
are omitted (see the module docstring). -/
structure Migration where
  version : Nat
  name : String
  checksum : String
deriving DecidableEq

/-- The SQLite database: whether the `migrations` ledger table exists, its rows
in insertion (rowid) order, and the abstract user schema. -/
structure Database (σ : Type) where
  ledgerExists : Bool
  ledger : List Migration
  schema : σ
deriving DecidableEq

/-- The world the `MigrationRunner` acts on: the migrations directory and the
database handle. -/
structure World (σ : Type) where
  fs : FS
  db : Database σ
deriving DecidableEq

/-- The engine's opaque collaborators: the SHA-256 hex digest function
(`calculateChecksum`) and the SQL execution primitive (`db.exec`) acting on the
user schema, which returns the error message of the underlying driver when the
script fails. -/
structure Env (σ : Type) where
  sha256 : String → String
  exec : String → σ → Except String σ

/-- JS code-unit comparison of two strings (the default `Array.prototype.sort`
comparator), as a strict lexicographic order on the character lists. -/
def jsStrLt : List Char → List Char → Bool
  | [], [] => false
  | [], _ :: _ => true
  | _ :: _, [] => false
  | a :: as, b :: bs => if a < b then true else if b < a then false else jsStrLt as bs

/-- The sorting relation used by the default JS sort: `a` may precede `b` iff
`b` is not strictly below `a`. -/
def jsStrLe (a b : String) : Prop := jsStrLt b.data a.data = false

instance : DecidableRel jsStrLe := fun a b => by unfold jsStrLe; infer_instance

/-- `haystack.includes(needle)` for JS strings, on character lists. -/
def containsSub (pat : List Char) : List Char → Bool
  | [] => pat.isEmpty
  | c :: rest => pat.isPrefixOf (c :: rest) || containsSub pat rest

namespace MigrationRunner

/-- `parseVersion`: the leading decimal-digit run of the filename, as a number;
no leading digit is an error (`Invalid migration filename`). -/
def parseVersion (filename : String) : Except String Nat :=
  let ds := filename.data.takeWhile Char.isDigit
  if ds.isEmpty then .error ("Invalid migration filename: " ++ filename)
  else .ok (ds.foldl (fun n c => n * 10 + (c.toNat - 48)) 0)

/-- `initialize()` in the source (renamed: the original identifier is reserved
in Lean): `CREATE TABLE IF NOT EXISTS migrations …` — idempotently makes the
ledger table exist, leaving any existing rows alone. -/
def ensureLedgerTable (w : World σ) : World σ :=
  { w with db := { w.db with ledgerExists := true } }

/-- Comparison of ledger rows by the `version` column (SQL `ORDER BY version`). -/
def byVersion (a b : Migration) : Prop := a.version ≤ b.version

instance : DecidableRel byVersion := fun a b => by unfold byVersion; infer_instance

instance : IsTotal Migration byVersion := ⟨fun a b => Nat.le_total a.version b.version⟩

instance : IsTrans Migration byVersion := ⟨fun _ _ _ h h' => Nat.le_trans h h'⟩

/-- `getAppliedMigrations()`: `SELECT * FROM migrations ORDER BY version`.
Fails (as SQLite does) when the ledger table does not exist. -/
def getAppliedMigrations (db : Database σ) : Except String (List Migration) :=
  match db.ledgerExists with
  | true => .ok (db.ledger.insertionSort byVersion)
  | false => .error "no such table: migrations"

/-- Reading a file of the migrations directory by name (`fs.readFileSync` on
`path.join(this.migrationsDir, name)`); `none` when it does not exist. -/
def readFile (fs : FS) (name : String) : Option String :=
  match fs.files with
  | none => none
  | some fl => (fl.find? (fun f => f.filename == name)).map (fun f => f.content)

/-- Reading a file of the `rollback` subdirectory by name; `none` when it does
not exist (`fs.existsSync(rollbackPath)` false). -/
def readRollbackFile (fs : FS) (name : String) : Option String :=
  (fs.rollbackFiles.find? (fun f => f.filename == name)).map (fun f => f.content)

/-- The filter on directory entries: `f.endsWith(".sql") &&
!f.includes(".rollback.")`. -/
def isMigrationFile (f : String) : Bool :=
  ".sql".data.isSuffixOf f.data && !(containsSub ".rollback.".data f.data)

/-- The candidate filenames: directory entries filtered as above, then sorted
with the default (lexical, code-unit) JS sort. -/
def listMigrationFiles (fl : List ScriptFile) : List String :=
  ((fl.map (fun f => f.filename)).filter isMigrationFile).insertionSort jsStrLe

/-- A pending-migration descriptor, as built by `getPendingMigrations` (the
`path` field is determined by the filename and is dropped). -/
structure Descriptor where
  filename : String
  version : Nat
deriving DecidableEq

/-- The `files.map(...)` step: parse every filename in order, failing at the
first filename without a leading version number. -/
def toDescriptors : List String → Except String (List Descriptor)
  | [] => .ok []
  | f :: rest =>
    match parseVersion f with
    | .error e => .error e
    | .ok v =>
      match toDescriptors rest with
      | .error e => .error e
      | .ok ds => .ok (⟨f, v⟩ :: ds)

/-- `getPendingMigrations()`: create the migrations directory when absent (and
report nothing pending); otherwise list the applied versions, then the sorted
candidate files, parse them, and keep those whose version is not applied. -/
def getPendingMigrations (w : World σ) : World σ × Except String (List Descriptor) :=
  match w.fs.files with
  | none => ({ w with fs := { w.fs with files := some [] } }, .ok [])
  | some fl =>
    match getAppliedMigrations w.db with
    | .error e => (w, .error e)
    | .ok applied =>
      let appliedVersions := applied.map (fun m => m.version)
      match toDescriptors (listMigrationFiles fl) with
      | .error e => (w, .error e)
      | .ok ds => (w, .ok (ds.filter (fun m => !(appliedVersions.contains m.version))))

/-- `SELECT * FROM migrations WHERE version = ?` followed by `.get` — the first
matching row in rowid order, needing the table to exist. -/
def getExisting (db : Database σ) (v : Nat) : Except String (Option Migration) :=
  match db.ledgerExists with
  | true => .ok (db.ledger.find? (fun r => r.version == v))
  | false => .error "no such table: migrations"

/-- `applyMigration(migrationFile)`: read the script, hash it, defensively
re-check the ledger (skip when an identical version is already recorded, fail
on a checksum mismatch), and otherwise execute the script plus the ledger
insert in one transaction.  Returns whether the script was actually executed. -/
def applyMigration (env : Env σ) (w : World σ) (m : Descriptor) :
    World σ × Except String Bool :=
  match readFile w.fs m.filename with
  | none => (w, .error ("ENOENT: no such file or directory: " ++ m.filename))
  | some content =>
    let checksum := env.sha256 content
    match getExisting w.db m.version with
    | .error e => (w, .error e)
    | .ok (some existing) =>
      if existing.checksum != checksum then
        (w, .error ("Migration " ++ m.filename ++ " has been modified since it was applied. " ++
          "Expected checksum: " ++ existing.checksum ++ ", got: " ++ checksum))
      else
        (w, .ok false)
    | .ok none =>
      match env.exec content w.db.schema with
      | .error e => (w, .error e)
      | .ok schema' =>
        ({ w with db := { w.db with
            schema := schema',
            ledger := w.db.ledger ++ [⟨m.version, m.filename, checksum⟩] } },
         .ok true)

/-- JS truthiness of the optional `version` argument of `rollback`: `0` and
`undefined` are both falsy. -/
def truthy : Option Nat → Bool
  | some n => n != 0
  | none => false

/-- The string interpolation of the optional `version` argument. -/
def versionString : Option Nat → String
  | some n => toString n
  | none => "undefined"

/-- JS `String.prototype.replace` with a string pattern: replace the first
occurrence only. -/
def replaceFirst : List Char → List Char → List Char → List Char
  | [], pat, repl => if pat.isEmpty then repl else []
  | c :: rest, pat, repl =>
    if pat.isPrefixOf (c :: rest) then repl ++ (c :: rest).drop pat.length
    else c :: replaceFirst rest pat repl

/-- The rollback script's filename for a ledger entry:
`name.replace(".sql", ".rollback.sql")`. -/
def rollbackName (name : String) : String :=
  ⟨replaceFirst name.data ".sql".data ".rollback.sql".data⟩

/-- `rollback(version?)`: no-op when nothing is applied; resolve the target
entry (the entry with the given version when the argument is truthy — failing
when absent — otherwise the last, i.e. highest-version, applied entry); require
the paired rollback script; then execute it plus the ledger `DELETE` in one
transaction. -/
def rollback (env : Env σ) (w : World σ) (version : Option Nat) :
    World σ × Except String Unit :=
  match getAppliedMigrations w.db with
  | .error e => (w, .error e)
  | .ok migrations =>
    if migrations.isEmpty then (w, .ok ())
    else
      let targetMigration :=
        if truthy version then migrations.find? (fun m => m.version == version.getD 0)
        else migrations.getLast?
      match targetMigration with
      | none => (w, .error ("Migration version " ++ versionString version ++ " not found"))
      | some target =>
        match readRollbackFile w.fs (rollbackName target.name) with
        | none => (w, .error ("No rollback file found for migration " ++ target.name))
        | some rollbackContent =>
          match env.exec rollbackContent w.db.schema with
          | .error e => (w, .error e)
          | .ok schema' =>
            ({ w with db := { w.db with
                schema := schema',
                ledger := w.db.ledger.filter (fun r => !(r.version == target.version)) } },
             .ok ())

/-- The `for (const migration of pending) this.applyMigration(migration)` loop:
apply each descriptor in order, stopping at the first thrown error; returns the
final state, the versions whose scripts were executed (in execution order), and
the error, if any. -/
def applyList (env : Env σ) : World σ → List Descriptor → World σ × List Nat × Option String
  | w, [] => (w, [], none)
  | w, m :: rest =>
    match applyMigration env w m with
    | (w', .ok ran) =>
      let r := applyList env w' rest
      (r.1, (if ran then [m.version] else []) ++ r.2.1, r.2.2)
    | (w', .error msg) => (w', [], some msg)

/-- The outcome of `runAll()`: final state, executed versions in order, the
propagated error when one was thrown, and whether the
`All migrations are up to date` message was printed. -/
structure RunResult (σ : Type) where
  world : World σ
  executed : List Nat
  error : Option String
  upToDate : Bool
deriving DecidableEq

/-- `runAll()`: ensure the ledger table, compute the pending set, report
`up to date` when it is empty, and otherwise apply each pending migration in
order. -/
def runAll (env : Env σ) (w : World σ) : RunResult σ :=
  let w1 := ensureLedgerTable w
  match getPendingMigrations w1 with
  | (w2, .error e) => ⟨w2, [], some e, false⟩
  | (w2, .ok pending) =>
    if pending.isEmpty then ⟨w2, [], none, true⟩
    else
      let r := applyList env w2 pending
      ⟨r.1, r.2.1, r.2.2, false⟩

/-- A violation reported by `validate()` while checking one ledger entry. -/
inductive Violation
  | missingFile (version : Nat) (name : String)
  | checksumMismatch (version : Nat) (name : String) (expected actual : String)
deriving DecidableEq

/-- The per-entry check of the `validate()` loop: the script must still exist
on disk and its recomputed checksum must equal the recorded one. -/
def checkMigration (env : Env σ) (fs : FS) (r : Migration) : Option Violation :=
  match readFile fs r.name with
  | none => some (.missingFile r.version r.name)
  | some content =>
    let currentChecksum := env.sha256 content
    if currentChecksum != r.checksum then
      some (.checksumMismatch r.version r.name r.checksum currentChecksum)
    else none

instance {ε α : Type} [DecidableEq ε] [DecidableEq α] : DecidableEq (Except ε α) := fun a b =>
  match a, b with
  | .error x, .error y =>
    decidable_of_iff (x = y) ⟨fun h => by rw [h], fun h => by cases h; rfl⟩
  | .error _, .ok _ => .isFalse (fun h => by cases h)
  | .ok _, .error _ => .isFalse (fun h => by cases h)
  | .ok x, .ok y =>
    decidable_of_iff (x = y) ⟨fun h => by rw [h], fun h => by cases h; rfl⟩

/-- The outcome of `validate()`: final state, the violations found (in ledger
order), and the thrown error when there was any violation. -/
structure ValidateResult (σ : Type) where
  world : World σ
  violations : List Violation
  result : Except String Unit
deriving DecidableEq

/-- `validate()`: ensure the ledger table, then check every applied entry,
collecting violations; throws `Migration validation failed` when any exist. -/
def validate (env : Env σ) (w : World σ) : ValidateResult σ :=
  let w1 := ensureLedgerTable w
  match getAppliedMigrations w1.db with
  | .error e => ⟨w1, [], .error e⟩
  | .ok applied =>
    let violations := applied.filterMap (checkMigration env w1.fs)
    if violations.isEmpty then ⟨w1, violations, .ok ()⟩
    else ⟨w1, violations, .error "Migration validation failed"⟩

end MigrationRunner

namespace MigrationRunner

/-! ### Basic inversion and frame lemmas about the engine's operations -/

theorem ensureLedgerTable_fs (w : World σ) : (ensureLedgerTable w).fs = w.fs := rfl

theorem ensureLedgerTable_ledger (w : World σ) :
    (ensureLedgerTable w).db.ledger = w.db.ledger := rfl

theorem ensureLedgerTable_schema (w : World σ) :
    (ensureLedgerTable w).db.schema = w.db.schema := rfl

theorem ensureLedgerTable_of_exists (w : World σ) (h : w.db.ledgerExists = true) :
    ensureLedgerTable w = w := by
  cases w with
  | mk fs db => cases db with
    | mk le l s => cases h; rfl

theorem getAppliedMigrations_of_exists (db : Database σ) (h : db.ledgerExists = true) :
    getAppliedMigrations db = .ok (db.ledger.insertionSort byVersion) := by
  unfold getAppliedMigrations; rw [h]

/-- Inversion principle for `applyMigration`: it either throws leaving the
state untouched, skips an already-recorded version leaving the state
untouched, or executes the script and appends the ledger row. -/
theorem applyMigration_cases (env : Env σ) (w : World σ) (m : Descriptor) :
    (∃ msg, applyMigration env w m = (w, .error msg)) ∨
    (applyMigration env w m = (w, .ok false) ∧
      ∃ r ∈ w.db.ledger, r.version = m.version) ∨
    (∃ content schema',
      readFile w.fs m.filename = some content ∧
      env.exec content w.db.schema = .ok schema' ∧
      w.db.ledger.find? (fun r => r.version == m.version) = none ∧
      applyMigration env w m =
        ({ w with db := { w.db with
            schema := schema',
            ledger := w.db.ledger ++ [⟨m.version, m.filename, env.sha256 content⟩] } },
         .ok true)) := by
  unfold applyMigration getExisting
  cases hrf : readFile w.fs m.filename with
  | none => exact .inl ⟨_, rfl⟩
  | some content =>
    dsimp only
    cases hle : w.db.ledgerExists with
    | false => exact .inl ⟨_, rfl⟩
    | true =>
      dsimp only
      cases hex : w.db.ledger.find? (fun r => r.version == m.version) with
      | some existing =>
        dsimp only
        by_cases hck : (existing.checksum != env.sha256 content) = true
        · rw [if_pos hck]
          exact .inl ⟨_, rfl⟩
        · rw [if_neg hck]
          refine .inr (.inl ⟨rfl, existing, List.mem_of_find?_eq_some hex, ?_⟩)
          have := List.find?_some hex
          simpa using this
      | none =>
        dsimp only
        cases hexec : env.exec content w.db.schema with
        | error e => exact .inl ⟨_, rfl⟩
        | ok schema' => exact .inr (.inr ⟨content, schema', rfl, hexec, rfl, rfl⟩)

/-- A throwing `applyMigration` leaves the world untouched (the transaction
rolled back, or nothing had been executed yet). -/
theorem applyMigration_error (env : Env σ) (w : World σ) (m : Descriptor) (msg : String)
    (h : (applyMigration env w m).2 = .error msg) : applyMigration env w m = (w, .error msg) := by
  rcases applyMigration_cases env w m with ⟨msg', he⟩ | ⟨he, -⟩ | ⟨c, s', -, -, -, he⟩
  · rw [he] at h ⊢; cases h; rfl
  · rw [he] at h; cases h
  · rw [he] at h; cases h

/-- `applyMigration` only ever appends ledger rows and touches nothing but the
user schema and the ledger. -/
theorem applyMigration_frame (env : Env σ) (w : World σ) (m : Descriptor) :
    ∃ ext, (applyMigration env w m).1.db.ledger = w.db.ledger ++ ext ∧
      (applyMigration env w m).1.db.ledgerExists = w.db.ledgerExists ∧
      (applyMigration env w m).1.fs = w.fs := by
  rcases applyMigration_cases env w m with ⟨msg', he⟩ | ⟨he, -⟩ | ⟨c, s', -, -, -, he⟩
  · exact ⟨[], by rw [he]; simp⟩
  · exact ⟨[], by rw [he]; simp⟩
  · exact ⟨[⟨m.version, m.filename, env.sha256 c⟩], by rw [he]; exact ⟨rfl, rfl, rfl⟩⟩

theorem applyList_cons (env : Env σ) (w : World σ) (m : Descriptor) (rest : List Descriptor) :
    applyList env w (m :: rest) =
      match applyMigration env w m with
      | (w', .ok ran) =>
        ((applyList env w' rest).1,
         (if ran then [m.version] else []) ++ (applyList env w' rest).2.1,
         (applyList env w' rest).2.2)
      | (w', .error msg) => (w', [], some msg) := rfl

/-- The application loop only ever appends ledger rows and touches nothing but
the user schema and the ledger. -/
theorem applyList_frame (env : Env σ) (P : List Descriptor) :
    ∀ w : World σ, ∃ ext, (applyList env w P).1.db.ledger = w.db.ledger ++ ext ∧
      (applyList env w P).1.db.ledgerExists = w.db.ledgerExists ∧
      (applyList env w P).1.fs = w.fs := by
  induction P with
  | nil => intro w; exact ⟨[], by simp [applyList]⟩
  | cons m rest ih =>
    intro w
    rw [applyList_cons]
    cases ha : applyMigration env w m with
    | mk w' res =>
      obtain ⟨e1, h1, h2, h3⟩ := applyMigration_frame env w m
      rw [ha] at h1 h2 h3
      simp only at h1 h2 h3
      cases res with
      | error msg => exact ⟨e1, h1, h2, h3⟩
      | ok ran =>
        obtain ⟨e2, g1, g2, g3⟩ := ih w'
        exact ⟨e1 ++ e2, by simp only [g1, h1, List.append_assoc],
          by simp only [g2, h2], by simp only [g3, h3]⟩

/-- A loop that ran without error has every processed version recorded in the
final ledger (freshly inserted, or already present and never deleted). -/
theorem applyList_mem_of_ok (env : Env σ) (P : List Descriptor) :
    ∀ (w w' : World σ) (l : List Nat), applyList env w P = (w', l, none) →
      ∀ m ∈ P, ∃ r ∈ w'.db.ledger, r.version = m.version := by
  induction P with
  | nil => intro w w' l h m hm; cases hm
  | cons m0 rest ih =>
    intro w w' l h m hm
    rw [applyList_cons] at h
    cases ha : applyMigration env w m0 with
    | mk w1 res =>
      rw [ha] at h
      cases res with
      | error msg => cases h
      | ok ran =>
        simp only [Prod.mk.injEq] at h
        obtain ⟨hw', -, herr⟩ := h
        rw [List.mem_cons] at hm
        rcases hm with rfl | hm
        · -- the head: find its version in w1, then push it through the rest of the loop
          have hmem1 : ∃ r ∈ w1.db.ledger, r.version = m.version := by
            rcases applyMigration_cases env w m with ⟨msg', he⟩ | ⟨he, r, hr, hv⟩ |
                ⟨c, s', -, -, -, he⟩
            · rw [he] at ha; cases ha
            · rw [he] at ha; cases ha; exact ⟨r, hr, hv⟩
            · rw [he] at ha; cases ha
              exact ⟨⟨m.version, m.filename, env.sha256 c⟩, by simp, rfl⟩
          obtain ⟨r, hr, hv⟩ := hmem1
          obtain ⟨ext, hext, -, -⟩ := applyList_frame env rest w1
          rw [hw'] at hext
          exact ⟨r, by rw [hext]; exact List.mem_append_left _ hr, hv⟩
        · exact ih w1 w' _ (by rw [← hw', ← herr]) m hm

/-- Splitting the application loop at an error-free front segment. -/
theorem applyList_append (env : Env σ) (P1 : List Descriptor) :
    ∀ (w w1 : World σ) (l1 : List Nat) (P2 : List Descriptor),
      applyList env w P1 = (w1, l1, none) →
      applyList env w (P1 ++ P2) =
        ((applyList env w1 P2).1, l1 ++ (applyList env w1 P2).2.1, (applyList env w1 P2).2.2) := by
  induction P1 with
  | nil =>
    intro w w1 l1 P2 h
    simp only [applyList] at h
    cases h; simp
  | cons m rest ih =>
    intro w w1 l1 P2 h
    rw [applyList_cons] at h
    simp only [List.cons_append]
    rw [applyList_cons]
    cases ha : applyMigration env w m with
    | mk w' res =>
      cases res with
      | error msg => rw [ha] at h; simp at h
      | ok ran =>
        rw [ha] at h
        simp only [Prod.mk.injEq] at h
        obtain ⟨h1, h2, h3⟩ := h
        dsimp only
        rw [ih w' w1 (applyList env w' rest).2.1 P2 (by rw [← h1, ← h3])]
        simp only [← h2, List.append_assoc]

end MigrationRunner

namespace MigrationRunner

theorem mem_of_getLast?_eq_some {l : List Migration} {a : Migration}
    (h : l.getLast? = some a) : a ∈ l := by
  obtain ⟨l', rfl⟩ := List.getLast?_eq_some_iff.mp h
  simp

/-- In a version-sorted list, the last entry has the greatest version. -/
theorem sorted_getLast?_max (l : List Migration) (t : Migration)
    (hs : List.Sorted byVersion l) (hl : l.getLast? = some t) :
    ∀ x ∈ l, x.version ≤ t.version := by
  induction l with
  | nil => cases hl
  | cons a l ih =>
    intro x hx
    cases l with
    | nil =>
      simp only [List.getLast?_singleton, Option.some.injEq] at hl
      cases hl
      simp only [List.mem_singleton] at hx
      cases hx
      exact Nat.le_refl _
    | cons b l' =>
      rw [List.getLast?_cons_cons] at hl
      rw [List.mem_cons] at hx
      rcases hx with rfl | hx
      · have ht : t ∈ b :: l' := mem_of_getLast?_eq_some hl
        exact (List.sorted_cons.mp hs).1 t ht
      · exact ih (List.sorted_cons.mp hs).2 hl x hx

/-- A version-sorted list with pairwise-distinct versions is strictly sorted. -/
theorem sorted_strict_of_nodup (l : List Migration)
    (hs : List.Sorted byVersion l) (hnd : (l.map (fun r => r.version)).Nodup) :
    List.Sorted (fun a b : Migration => a.version < b.version) l := by
  have h2 : List.Pairwise (fun a b : Migration => a.version ≠ b.version) l := by
    rw [List.Nodup, List.pairwise_map] at hnd
    exact hnd
  exact List.Pairwise.imp (fun h => Nat.lt_of_le_of_ne h.1 h.2) (List.Pairwise.and hs h2)

instance : IsAntisymm Migration (fun a b : Migration => a.version < b.version) :=
  ⟨fun _ _ h h' => absurd h' (Nat.lt_asymm h)⟩

/-- Version-sorting is determined by the multiset of rows once versions are
pairwise distinct. -/
theorem insertionSort_eq_of_perm (l₁ l₂ : List Migration)
    (hperm : l₁.Perm l₂) (hnd : (l₁.map (fun r => r.version)).Nodup) :
    l₁.insertionSort byVersion = l₂.insertionSort byVersion := by
  have hp : (l₁.insertionSort byVersion).Perm (l₂.insertionSort byVersion) :=
    ((List.perm_insertionSort byVersion l₁).trans hperm).trans
      (List.perm_insertionSort byVersion l₂).symm
  have hnd₁ : ((l₁.insertionSort byVersion).map (fun r => r.version)).Nodup := by
    refine (List.Perm.nodup_iff ?_).mpr hnd
    exact List.Perm.map _ (List.perm_insertionSort byVersion l₁)
  have hnd₂ : ((l₂.insertionSort byVersion).map (fun r => r.version)).Nodup := by
    refine (List.Perm.nodup_iff ?_).mpr hnd₁
    exact List.Perm.map _ hp.symm
  exact List.eq_of_perm_of_sorted hp
    (sorted_strict_of_nodup _ (List.sorted_insertionSort byVersion l₁) hnd₁)
    (sorted_strict_of_nodup _ (List.sorted_insertionSort byVersion l₂) hnd₂)

/-- Inversion principle for `rollback`: it either throws leaving the state
untouched, is a no-op on an empty ledger, or resolves a target, finds its
rollback script, executes it and deletes exactly the target's ledger rows. -/
theorem rollback_cases (env : Env σ) (w : World σ) (v : Option Nat) :
    (∃ msg, rollback env w v = (w, .error msg)) ∨
    (w.db.ledgerExists = true ∧ w.db.ledger = [] ∧ rollback env w v = (w, .ok ())) ∨
    (∃ t rc s', w.db.ledgerExists = true ∧
      (if truthy v then (w.db.ledger.insertionSort byVersion).find?
          (fun m => m.version == v.getD 0)
        else (w.db.ledger.insertionSort byVersion).getLast?) = some t ∧
      readRollbackFile w.fs (rollbackName t.name) = some rc ∧
      env.exec rc w.db.schema = .ok s' ∧
      rollback env w v = ({ w with db := { w.db with
          schema := s',
          ledger := w.db.ledger.filter (fun r => !(r.version == t.version)) } }, .ok ())) := by
  unfold rollback getAppliedMigrations
  cases hle : w.db.ledgerExists with
  | false => exact .inl ⟨_, rfl⟩
  | true =>
    dsimp only
    cases hemp : (w.db.ledger.insertionSort byVersion).isEmpty with
    | true =>
      rw [if_pos rfl]
      refine .inr (.inl ⟨rfl, ?_, rfl⟩)
      have := List.isEmpty_iff.mp hemp
      have hp := List.perm_insertionSort byVersion w.db.ledger
      rw [this] at hp
      exact hp.nil_eq.symm
    | false =>
      rw [if_neg (by simp)]
      cases ht : (if truthy v then (w.db.ledger.insertionSort byVersion).find?
          (fun m => m.version == v.getD 0)
        else (w.db.ledger.insertionSort byVersion).getLast?) with
      | none => exact .inl ⟨_, rfl⟩
      | some t =>
        dsimp only
        cases hrb : readRollbackFile w.fs (rollbackName t.name) with
        | none => exact .inl ⟨_, rfl⟩
        | some rc =>
          dsimp only
          cases hexec : env.exec rc w.db.schema with
          | error e => exact .inl ⟨_, rfl⟩
          | ok s' => exact .inr (.inr ⟨t, rc, s', rfl, rfl, hrb, hexec, rfl⟩)

/-- Deleting by the version of an entry that occurs once removes exactly that
entry. -/
theorem filter_out_unique_version (l A B : List Migration) (r : Migration)
    (hAB : l = A ++ r :: B) (hnd : (l.map (fun x => x.version)).Nodup) :
    l.filter (fun x => !(x.version == r.version)) = A ++ B := by
  subst hAB
  rw [List.map_append, List.map_cons, List.nodup_append] at hnd
  obtain ⟨-, hndr, hdisj⟩ := hnd
  rw [List.filter_append, List.filter_cons]
  have hrf : (!(r.version == r.version)) = false := by simp
  rw [hrf]
  simp only [Bool.false_eq_true, if_false]
  rw [List.filter_eq_self.mpr, List.filter_eq_self.mpr]
  · intro a ha
    have hne : a.version ≠ r.version := by
      intro hc
      exact (List.nodup_cons.mp hndr).1 (by rw [← hc]; exact List.mem_map_of_mem _ ha)
    simpa using hne
  · intro a ha
    have hne : a.version ≠ r.version := by
      intro hc
      exact hdisj (List.mem_map_of_mem _ ha) (by rw [hc]; exact List.mem_cons_self _ _)
    simpa using hne

end MigrationRunner

open MigrationRunner

/-- A concrete instantiation of the abstract collaborators for witnesses: the
user schema is the list of executed statements, hashing is the identity, and
the statement `"FAIL"` makes the driver throw `"SQL error"`. -/
def listEnv : Env (List String) :=
  ⟨fun s => s, fun s l => if s = "FAIL" then .error "SQL error" else .ok (l ++ [s])⟩

/-- A migrations directory holding unpadded version 9 next to version 10, with
nothing applied yet. -/
def lexWorld : World (List String) :=
  ⟨⟨some [⟨"9_a.sql", "create nine"⟩, ⟨"10_b.sql", "create ten"⟩], []⟩, ⟨false, [], []⟩⟩

/-- C1: the claim says `runAll` applies pending migrations in ascending numeric
version order, so with versions 9 and 10 coexisting, 9 before 10.  The code
sorts the discovered filenames lexically and never re-orders by parsed
version: on the catalog `9_a.sql`, `10_b.sql` it executes version 10 first and
version 9 second, refuting the claim at this input. -/
theorem runAll_applies_in_lexical_filename_order :
    (runAll listEnv lexWorld).executed = [10, 9] ∧
    (runAll listEnv lexWorld).error = none ∧
    (runAll listEnv lexWorld).world.db.schema = ["create ten", "create nine"] := by decide

/-- A migrations directory in which `001_a.sql` and `1_b.sql` both parse to
version 1, with nothing applied yet. -/
def dupWorld : World (List String) :=
  ⟨⟨some [⟨"001_a.sql", "X"⟩, ⟨"1_b.sql", "Y"⟩], []⟩, ⟨true, [], []⟩⟩

/-- C9: the claim says two files parsing to the same version are detected and
rejected while the catalog is built, before anything is applied.  The code's
discovery performs no duplicate check: both descriptors, sharing version 1,
are returned in the pending list. -/
theorem getPendingMigrations_admits_duplicate_versions :
    (getPendingMigrations dupWorld).2 = .ok [⟨"001_a.sql", 1⟩, ⟨"1_b.sql", 1⟩] := by decide

/-- C9 (amended): catalog discovery performs no duplicate-version check; both
files parsing to version 1 enter the pending list, the first is applied and
recorded, and the conflict only surfaces when `applyMigration` reaches the
second file, whose version is now in the ledger with a different checksum —
i.e. after the first duplicate has already been applied, not at
catalog-build time. -/
theorem duplicate_version_fails_only_at_apply_time :
    (runAll listEnv dupWorld).executed = [1] ∧
    (runAll listEnv dupWorld).error = some ("Migration 1_b.sql has been modified since " ++
      "it was applied. Expected checksum: X, got: Y") ∧
    (runAll listEnv dupWorld).world.db.ledger = [⟨1, "001_a.sql", "X"⟩] := by decide

/-- A database whose ledger holds versions 0 and 1, both with rollback
scripts present. -/
def zeroWorld : World (List String) :=
  ⟨⟨some [⟨"0_a.sql", "A"⟩, ⟨"1_b.sql", "B"⟩],
    [⟨"0_a.rollback.sql", "undo a"⟩, ⟨"1_b.rollback.sql", "undo b"⟩]⟩,
   ⟨true, [⟨0, "0_a.sql", "A"⟩, ⟨1, "1_b.sql", "B"⟩], ["A", "B"]⟩⟩

/-- C5: the claim says that whenever a target version is given, `rollback`
acts on the ledger entry with exactly that version.  The code tests the
argument with JS truthiness, so the given target version 0 — whose entry
exists — is treated as absent: the call succeeds but deletes the version-1
row and leaves the version-0 row in place, refuting the claim at this input. -/
theorem rollback_target_zero_deletes_highest_instead :
    (rollback listEnv zeroWorld (some 0)).2 = .ok () ∧
    (rollback listEnv zeroWorld (some 0)).1.db.ledger = [⟨0, "0_a.sql", "A"⟩] := by decide

/-- A database in which the migrations ledger table has not been created. -/
def noTableWorld : World (List String) := ⟨⟨some [], []⟩, ⟨false, [], []⟩⟩

/-- C8: the claim says `validate` leaves the datastore exactly as it was, even
when the ledger table did not yet exist.  The code's `validate` first calls
`initialize`, which creates the ledger table when absent: on a database
without the table, the table exists after the call, refuting the claim at
this input. -/
theorem validate_creates_missing_ledger_table :
    noTableWorld.db.ledgerExists = false ∧
    (validate listEnv noTableWorld).world.db.ledgerExists = true := by decide

/-- C8 (amended): `validate` never changes the ledger rows, the user schema,
or the filesystem; its only mutation is ensuring the ledger table exists
(creating it when absent, as its initial `initialize` call does). -/
theorem validate_mutates_only_ledger_table_existence {σ : Type} (env : Env σ) (w : World σ) :
    (validate env w).world.db.ledger = w.db.ledger ∧
    (validate env w).world.db.schema = w.db.schema ∧
    (validate env w).world.fs = w.fs ∧
    (validate env w).world.db.ledgerExists = true := by
  unfold validate
  dsimp only
  split
  · exact ⟨rfl, rfl, rfl, rfl⟩
  · split
    · exact ⟨rfl, rfl, rfl, rfl⟩
    · exact ⟨rfl, rfl, rfl, rfl⟩

/-- C6: when the applied set is non-empty and the resolved rollback target
exists but its paired rollback script file is absent, `rollback` fails with
the missing-rollback-script error before executing anything: the returned
world is exactly the input world, so the ledger and the datastore schema are
completely unchanged. -/
theorem rollback_missing_script_fails_unchanged {σ : Type} (env : Env σ) (w : World σ)
    (v : Option Nat) (ms : List Migration) (t : Migration)
    (hms : getAppliedMigrations w.db = .ok ms)
    (hne : ms.isEmpty = false)
    (ht : (if truthy v then ms.find? (fun m => m.version == v.getD 0) else ms.getLast?) = some t)
    (hmiss : readRollbackFile w.fs (rollbackName t.name) = none) :
    rollback env w v = (w, .error ("No rollback file found for migration " ++ t.name)) := by
  unfold rollback
  rw [hms]
  dsimp only
  rw [if_neg (by simp [hne])]
  rw [ht]
  dsimp only
  rw [hmiss]

/-- A database with version 2 applied whose rollback script is absent. -/
def missWorld : World (List String) :=
  ⟨⟨some [⟨"002_x.sql", "C"⟩], []⟩, ⟨true, [⟨2, "002_x.sql", "C"⟩], ["C"]⟩⟩

/-- Witness for the missing-rollback-script theorem at a concrete database. -/
theorem rollback_missing_script_fails_unchanged_witness :
    rollback listEnv missWorld (some 2) =
      (missWorld, .error "No rollback file found for migration 002_x.sql") :=
  rollback_missing_script_fails_unchanged listEnv missWorld (some 2)
    [⟨2, "002_x.sql", "C"⟩] ⟨2, "002_x.sql", "C"⟩ (by decide) (by decide) (by decide) (by decide)

/-- C10: when `rollback` of an explicitly given (nonzero) target version whose
entry exists succeeds, exactly the ledger row with that version is deleted:
the remaining ledger is the original with that single row removed, all other
rows — including any with higher versions — unchanged and in their original
order. -/
theorem rollback_deletes_exactly_target_row {σ : Type} (env : Env σ) (w w' : World σ) (v : Nat)
    (hv : v ≠ 0)
    (hnd : (w.db.ledger.map (fun r => r.version)).Nodup)
    (hmem : ∃ r ∈ w.db.ledger, r.version = v)
    (h : rollback env w (some v) = (w', .ok ())) :
    ∃ A r B, w.db.ledger = A ++ r :: B ∧ r.version = v ∧ w'.db.ledger = A ++ B := by
  obtain ⟨r0, hr0, hv0⟩ := hmem
  obtain ⟨A, B, hAB⟩ := List.append_of_mem hr0
  have hndAB := hnd
  rw [hAB, List.map_append, List.map_cons, List.nodup_append] at hndAB
  obtain ⟨-, hndr, hdisj⟩ := hndAB
  have hvA : ∀ x ∈ A, x.version ≠ v := by
    intro x hx hc
    exact hdisj (List.mem_map_of_mem _ hx)
      (by rw [hc, ← hv0]; exact List.mem_cons_self _ _)
  have hvB : ∀ x ∈ B, x.version ≠ v := by
    intro x hx hc
    have hnotin := (List.nodup_cons.mp hndr).1
    have hxm : x.version ∈ List.map (fun r => r.version) B := List.mem_map_of_mem _ hx
    rw [hc, ← hv0] at hxm
    exact hnotin hxm
  rcases rollback_cases env w (some v) with ⟨msg, he⟩ | ⟨-, hemp, he⟩ |
      ⟨t, rc, s', -, ht, -, -, he⟩
  · rw [he] at h
    have := congrArg (fun p => p.2) h
    simp at this
  · rw [hemp] at hAB
    simp at hAB
  · have htv : t.version = v := by
      have htr : truthy (some v) = true := by simp [truthy, hv]
      rw [if_pos htr] at ht
      have := List.find?_some ht
      simpa using this
    rw [he] at h
    rw [Prod.mk.injEq] at h
    obtain ⟨h1, -⟩ := h
    refine ⟨A, r0, B, hAB, hv0, ?_⟩
    rw [← h1]
    show w.db.ledger.filter (fun r => !(r.version == t.version)) = A ++ B
    rw [hAB, List.filter_append, List.filter_cons]
    have hr0f : (!(r0.version == t.version)) = false := by
      rw [htv, hv0]; simp
    rw [hr0f]
    simp only [Bool.false_eq_true, if_false]
    rw [List.filter_eq_self.mpr, List.filter_eq_self.mpr]
    · intro a ha
      rw [htv]
      simpa using hvB a ha
    · intro a ha
      rw [htv]
      simpa using hvA a ha

/-- A ledger with versions 1, 2, 3 applied, rollback scripts all present; used
to roll back the middle version 2 out of order. -/
def midWorld : World (List String) :=
  ⟨⟨some [⟨"1_a.sql", "A"⟩, ⟨"2_b.sql", "B"⟩, ⟨"3_c.sql", "C"⟩],
    [⟨"1_a.rollback.sql", "ua"⟩, ⟨"2_b.rollback.sql", "ub"⟩, ⟨"3_c.rollback.sql", "uc"⟩]⟩,
   ⟨true, [⟨1, "1_a.sql", "A"⟩, ⟨2, "2_b.sql", "B"⟩, ⟨3, "3_c.sql", "C"⟩], ["A", "B", "C"]⟩⟩

/-- Witness: rolling back version 2 of three applied versions deletes exactly
the version-2 row; versions 1 and 3 stay recorded. -/
theorem rollback_deletes_exactly_target_row_witness :
    ∃ A r B, midWorld.db.ledger = A ++ r :: B ∧ r.version = 2 ∧
      (rollback listEnv midWorld (some 2)).1.db.ledger = A ++ B :=
  rollback_deletes_exactly_target_row listEnv midWorld
    (rollback listEnv midWorld (some 2)).1 2 (by decide) (by decide)
    ⟨⟨2, "2_b.sql", "B"⟩, by decide, rfl⟩ (by decide)

/-- C5 (amended): target resolution of `rollback` on an existing ledger table:
(1) an empty ledger makes any call a successful no-op; (2) a given nonzero
target version with no matching entry fails with the not-found error, leaving
the world unchanged; (3) a given target version 0 is treated exactly like an
absent argument (JS truthiness); (4) with no (effective) target argument the
resolved target is the last entry of the version-sorted ledger — the one of
maximal version — and on success exactly its rows are deleted; (5) a given
nonzero target version that is present in a duplicate-free ledger is the
entry acted on: on success exactly its row is deleted from the ledger. -/
theorem rollback_resolution_amended {σ : Type} (env : Env σ) (w : World σ)
    (hex : w.db.ledgerExists = true) :
    (w.db.ledger = [] → ∀ v, rollback env w v = (w, .ok ())) ∧
    (∀ n, n ≠ 0 → w.db.ledger ≠ [] → (∀ r ∈ w.db.ledger, r.version ≠ n) →
      rollback env w (some n) =
        (w, .error ("Migration version " ++ toString n ++ " not found"))) ∧
    (rollback env w (some 0) = rollback env w none) ∧
    (∀ t, (w.db.ledger.insertionSort byVersion).getLast? = some t →
      (∀ r ∈ w.db.ledger, r.version ≤ t.version) ∧
      ∀ w', rollback env w none = (w', .ok ()) →
        w'.db.ledger = w.db.ledger.filter (fun r => !(r.version == t.version))) ∧
    (∀ n w', n ≠ 0 → (w.db.ledger.map (fun x => x.version)).Nodup →
      (∃ r ∈ w.db.ledger, r.version = n) →
      rollback env w (some n) = (w', .ok ()) →
      ∃ A r B, w.db.ledger = A ++ r :: B ∧ r.version = n ∧ w'.db.ledger = A ++ B) := by
  refine ⟨?_, ?_, ?_, ?_, ?_⟩
  · intro hledg v
    unfold rollback
    rw [getAppliedMigrations_of_exists _ hex, hledg]
    rfl
  · intro n hn hne hvers
    unfold rollback
    rw [getAppliedMigrations_of_exists _ hex]
    dsimp only
    have hempf : (w.db.ledger.insertionSort byVersion).isEmpty = false := by
      rw [List.isEmpty_eq_false]
      intro hc
      have hp := List.perm_insertionSort byVersion w.db.ledger
      rw [hc] at hp
      exact hne hp.nil_eq.symm
    rw [if_neg (by simp [hempf])]
    have htr : truthy (some n) = true := by simp [truthy, hn]
    rw [if_pos htr]
    have hfind : (w.db.ledger.insertionSort byVersion).find?
        (fun m => m.version == (some n).getD 0) = none := by
      rw [List.find?_eq_none]
      intro x hx
      have hxl : x ∈ w.db.ledger :=
        ((List.perm_insertionSort byVersion w.db.ledger).mem_iff).mp hx
      simpa using hvers x hxl
    rw [hfind]
    exact rfl
  · unfold rollback
    rw [getAppliedMigrations_of_exists _ hex]
    dsimp only
    cases hemp : (w.db.ledger.insertionSort byVersion).isEmpty with
    | true => rfl
    | false =>
      simp only [Bool.false_eq_true, if_false]
      cases hlast : (w.db.ledger.insertionSort byVersion).getLast? with
      | none =>
        exfalso
        exact (List.isEmpty_eq_false.mp hemp) (List.getLast?_eq_none_iff.mp hlast)
      | some t => rfl
  · intro t ht
    constructor
    · intro r hr
      have hsorted := List.sorted_insertionSort byVersion w.db.ledger
      have hr' : r ∈ w.db.ledger.insertionSort byVersion :=
        ((List.perm_insertionSort byVersion w.db.ledger).mem_iff).mpr hr
      exact sorted_getLast?_max _ t hsorted ht r hr'
    · intro w' h
      rcases rollback_cases env w none with ⟨msg, he⟩ | ⟨-, hemp, he⟩ |
          ⟨t', rc, s', -, ht', -, -, he⟩
      · rw [he] at h
        have := congrArg (fun p => p.2) h
        simp at this
      · rw [he] at h
        rw [Prod.mk.injEq] at h
        obtain ⟨h1, -⟩ := h
        rw [← h1]
        simp [hemp]
      · rw [if_neg (show ¬(truthy none = true) by simp [truthy])] at ht'
        rw [ht] at ht'
        have htt : t = t' := Option.some.inj ht'
        rw [he] at h
        rw [Prod.mk.injEq] at h
        obtain ⟨h1, -⟩ := h
        rw [← h1, htt]
  · intro n w' hn hnd hmem h
    obtain ⟨r0, hr0, hv0⟩ := hmem
    obtain ⟨A, B, hAB⟩ := List.append_of_mem hr0
    rcases rollback_cases env w (some n) with ⟨msg, he⟩ | ⟨-, hemp, he⟩ |
        ⟨t, rc, s', -, ht, -, -, he⟩
    · rw [he] at h
      have := congrArg (fun p => p.2) h
      simp at this
    · rw [hemp] at hAB
      simp at hAB
    · have htv : t.version = n := by
        have htr : truthy (some n) = true := by simp [truthy, hn]
        rw [if_pos htr] at ht
        have := List.find?_some ht
        simpa using this
      rw [he] at h
      rw [Prod.mk.injEq] at h
      obtain ⟨h1, -⟩ := h
      refine ⟨A, r0, B, hAB, hv0, ?_⟩
      rw [← h1]
      show w.db.ledger.filter (fun x => !(x.version == t.version)) = A ++ B
      rw [htv, ← hv0]
      exact filter_out_unique_version w.db.ledger A B r0 hAB hnd

/-- Witness: the amended rollback-resolution theorem at a concrete ledger —
requesting the absent nonzero version 5 fails with the not-found error. -/
theorem rollback_resolution_amended_witness :
    rollback listEnv zeroWorld (some 5) =
      (zeroWorld, .error "Migration version 5 not found") :=
  (rollback_resolution_amended listEnv zeroWorld rfl).2.1 5 (by decide) (by decide) (by decide)

/-- C2: when a pending migration's execution fails inside its transaction, the
whole step is rolled back as a unit — the run's final world is exactly the
pre-step world `w1`, so neither the schema change nor the new ledger row of
the failing migration persists — the error message propagates out of `runAll`,
and no subsequent pending migration is attempted: the result is the same for
every remaining pending list `P2`, whose migrations contribute nothing.
Ledger rows committed before the failing step remain: the final ledger extends
the pre-run ledger. -/
theorem runAll_failure_atomic_fail_fast {σ : Type} (env : Env σ) (w w2 w1 : World σ)
    (P1 P2 : List Descriptor) (m : Descriptor) (l1 : List Nat) (msg : String)
    (hp : getPendingMigrations (ensureLedgerTable w) = (w2, .ok (P1 ++ m :: P2)))
    (h1 : applyList env w2 P1 = (w1, l1, none))
    (h2 : (applyMigration env w1 m).2 = .error msg) :
    runAll env w = ⟨w1, l1, some msg, false⟩ ∧
    ∃ ext, w1.db.ledger = w2.db.ledger ++ ext := by
  have hm := applyMigration_error env w1 m msg h2
  have happ := applyList_append env P1 w2 w1 l1 (m :: P2) h1
  rw [applyList_cons, hm] at happ
  dsimp only at happ
  constructor
  · unfold runAll
    dsimp only
    rw [hp]
    dsimp only
    rw [if_neg (show ¬((P1 ++ m :: P2).isEmpty = true) by cases P1 <;> simp)]
    rw [happ]
    simp
  · obtain ⟨ext, hext, -, -⟩ := applyList_frame env P1 w2
    rw [h1] at hext
    exact ⟨ext, hext⟩

/-- A fresh database whose second pending migration's script fails to
execute. -/
def failWorld : World (List String) :=
  ⟨⟨some [⟨"001_a.sql", "A"⟩, ⟨"002_b.sql", "FAIL"⟩, ⟨"003_c.sql", "C"⟩], []⟩, ⟨false, [], []⟩⟩

/-- The state after the first migration of `failWorld` committed. -/
def failWorld1 : World (List String) :=
  ⟨⟨some [⟨"001_a.sql", "A"⟩, ⟨"002_b.sql", "FAIL"⟩, ⟨"003_c.sql", "C"⟩], []⟩,
   ⟨true, [⟨1, "001_a.sql", "A"⟩], ["A"]⟩⟩

/-- Witness: running `failWorld` commits version 1, stops at version 2's SQL
error, and never touches version 3. -/
theorem runAll_failure_atomic_fail_fast_witness :
    runAll listEnv failWorld = ⟨failWorld1, [1], some "SQL error", false⟩ ∧
    ∃ ext, failWorld1.db.ledger = (ensureLedgerTable failWorld).db.ledger ++ ext :=
  runAll_failure_atomic_fail_fast listEnv failWorld (ensureLedgerTable failWorld) failWorld1
    [⟨"001_a.sql", 1⟩] [⟨"003_c.sql", 3⟩] ⟨"002_b.sql", 2⟩ [1] "SQL error"
    (by decide) (by decide) (by decide)

namespace MigrationRunner

theorem contains_of_mem {a : Nat} {l : List Nat} (h : a ∈ l) : l.contains a = true :=
  List.elem_iff.mpr h

theorem mem_of_contains {a : Nat} {l : List Nat} (h : l.contains a = true) : a ∈ l :=
  List.elem_iff.mp h

/-- Discovery never touches the database. -/
theorem getPendingMigrations_db (w : World σ) : (getPendingMigrations w).1.db = w.db := by
  unfold getPendingMigrations
  cases hf : w.fs.files with
  | none => rfl
  | some fl =>
    dsimp only
    cases getAppliedMigrations w.db with
    | error e => rfl
    | ok applied =>
      dsimp only
      cases toDescriptors (listMigrationFiles fl) with
      | error e => rfl
      | ok ds => rfl

/-- When the migrations directory exists, discovery is a pure read. -/
theorem getPendingMigrations_fst_of_some (w : World σ) (fl : List ScriptFile)
    (hf : w.fs.files = some fl) : (getPendingMigrations w).1 = w := by
  unfold getPendingMigrations
  rw [hf]
  dsimp only
  cases getAppliedMigrations w.db with
  | error e => rfl
  | ok applied =>
    dsimp only
    cases toDescriptors (listMigrationFiles fl) with
    | error e => rfl
    | ok ds => rfl

/-- `runAll` on a state with nothing pending reports `up to date` and changes
nothing. -/
theorem runAll_of_pending_nil (env : Env σ) (w : World σ)
    (hle : w.db.ledgerExists = true)
    (hgp : getPendingMigrations w = (w, .ok [])) :
    runAll env w = ⟨w, [], none, true⟩ := by
  unfold runAll
  dsimp only
  rw [ensureLedgerTable_of_exists w hle, hgp]
  rfl

/-- When every discovered descriptor's version is already in the ledger,
discovery reports nothing pending. -/
theorem getPendingMigrations_none_of_all_applied (w : World σ)
    (fl : List ScriptFile) (ds : List Descriptor)
    (hle : w.db.ledgerExists = true)
    (hf : w.fs.files = some fl)
    (htd : toDescriptors (listMigrationFiles fl) = .ok ds)
    (hall : ∀ d ∈ ds, ∃ x ∈ w.db.ledger, x.version = d.version) :
    getPendingMigrations w = (w, .ok []) := by
  unfold getPendingMigrations
  rw [hf]
  dsimp only
  rw [getAppliedMigrations_of_exists _ hle]
  dsimp only
  rw [htd]
  dsimp only
  have hfil : ds.filter (fun m =>
      !(((w.db.ledger.insertionSort byVersion).map (fun x => x.version)).contains
        m.version)) = [] := by
    rw [List.filter_eq_nil_iff]
    intro d hd
    obtain ⟨x, hx, hv⟩ := hall d hd
    have hxs : x ∈ w.db.ledger.insertionSort byVersion :=
      ((List.perm_insertionSort byVersion w.db.ledger).mem_iff).mpr hx
    have hmm : d.version ∈ (w.db.ledger.insertionSort byVersion).map (fun x => x.version) := by
      rw [← hv]
      exact List.mem_map_of_mem _ hxs
    rw [contains_of_mem hmm]
    simp
  rw [hfil]

end MigrationRunner

/-- C3: `runAll` run twice in succession is idempotent: whenever a first run
completes without error, the second run computes an empty pending set, applies
zero migrations, leaves the whole world — ledger included — unchanged, and
reports `up to date`. -/
theorem runAll_twice_idempotent {σ : Type} (env : Env σ) (w : World σ) (res : RunResult σ)
    (h : runAll env w = res) (herr : res.error = none) :
    runAll env res.world = ⟨res.world, [], none, true⟩ := by
  unfold runAll at h
  dsimp only at h
  cases hgp : getPendingMigrations (ensureLedgerTable w) with
  | mk w2 e =>
    rw [hgp] at h
    have hdb2 : w2.db = (ensureLedgerTable w).db := by
      have hd := getPendingMigrations_db (ensureLedgerTable w)
      rw [hgp] at hd
      exact hd
    have hle2 : w2.db.ledgerExists = true := by rw [hdb2]; rfl
    cases e with
    | error msg =>
      dsimp only at h
      rw [← h] at herr
      simp at herr
    | ok pending =>
      dsimp only at h
      cases hpe : pending.isEmpty with
      | true =>
        rw [hpe, if_pos rfl] at h
        have hpnil : pending = [] := List.isEmpty_iff.mp hpe
        subst h
        cases hf1 : (ensureLedgerTable w).fs.files with
        | none =>
          unfold getPendingMigrations at hgp
          rw [hf1] at hgp
          dsimp only at hgp
          rw [Prod.mk.injEq] at hgp
          obtain ⟨hw2, -⟩ := hgp
          have hf2 : w2.fs.files = some [] := by rw [← hw2]
          exact runAll_of_pending_nil env w2 hle2
            (getPendingMigrations_none_of_all_applied w2 [] [] hle2 hf2 rfl
              (by intro d hd; cases hd))
        | some fl =>
          have hw21 : w2 = ensureLedgerTable w := by
            have hfst := getPendingMigrations_fst_of_some (ensureLedgerTable w) fl hf1
            rw [hgp] at hfst
            exact hfst
          rw [hpnil] at hgp
          subst hw21
          exact runAll_of_pending_nil env _ hle2 hgp
      | false =>
        rw [hpe, if_neg (by simp)] at h
        subst h
        dsimp only at herr ⊢
        obtain ⟨ext, hext, hle3, hfs3⟩ := applyList_frame env pending w2
        have happly : applyList env w2 pending =
            ((applyList env w2 pending).1, (applyList env w2 pending).2.1, none) := by
          rw [← herr]
        cases hf1 : (ensureLedgerTable w).fs.files with
        | none =>
          unfold getPendingMigrations at hgp
          rw [hf1] at hgp
          dsimp only at hgp
          rw [Prod.mk.injEq] at hgp
          obtain ⟨-, hok⟩ := hgp
          have hnil := Except.ok.inj hok
          rw [← hnil] at hpe
          simp at hpe
        | some fl =>
          have hw21 : w2 = ensureLedgerTable w := by
            have hfst := getPendingMigrations_fst_of_some (ensureLedgerTable w) fl hf1
            rw [hgp] at hfst
            exact hfst
          subst hw21
          unfold getPendingMigrations at hgp
          rw [hf1] at hgp
          dsimp only at hgp
          rw [getAppliedMigrations_of_exists _ rfl] at hgp
          dsimp only at hgp
          cases htd : toDescriptors (listMigrationFiles fl) with
          | error e0 =>
            rw [htd] at hgp
            dsimp only at hgp
            rw [Prod.mk.injEq] at hgp
            obtain ⟨-, hbad⟩ := hgp
            simp at hbad
          | ok ds =>
            rw [htd] at hgp
            dsimp only at hgp
            rw [Prod.mk.injEq] at hgp
            obtain ⟨-, hpend⟩ := hgp
            have hfeq := Except.ok.inj hpend
            have hle3' : (applyList env (ensureLedgerTable w) pending).1.db.ledgerExists = true := by
              rw [hle3]
              rfl
            have hall : ∀ d ∈ ds,
                ∃ x ∈ (applyList env (ensureLedgerTable w) pending).1.db.ledger,
                  x.version = d.version := by
              intro d hd
              cases hcc : (((ensureLedgerTable w).db.ledger.insertionSort byVersion).map
                  (fun x => x.version)).contains d.version with
              | true =>
                have hmm := mem_of_contains hcc
                obtain ⟨x, hxs, hxv⟩ := List.mem_map.mp hmm
                have hxl : x ∈ (ensureLedgerTable w).db.ledger :=
                  ((List.perm_insertionSort byVersion _).mem_iff).mp hxs
                refine ⟨x, ?_, hxv⟩
                rw [hext]
                exact List.mem_append_left _ hxl
              | false =>
                have hdp : d ∈ pending := by
                  rw [← hfeq]
                  rw [List.mem_filter]
                  exact ⟨hd, by rw [hcc]; rfl⟩
                exact applyList_mem_of_ok env pending (ensureLedgerTable w) _ _ happly d hdp
            exact runAll_of_pending_nil env _ hle3'
              (getPendingMigrations_none_of_all_applied _ fl ds hle3'
                (by rw [hfs3]; exact hf1) htd hall)

/-- Witness: idempotence at a concrete catalog whose first run succeeded. -/
theorem runAll_twice_idempotent_witness :
    runAll listEnv (runAll listEnv lexWorld).world =
      ⟨(runAll listEnv lexWorld).world, [], none, true⟩ :=
  runAll_twice_idempotent listEnv lexWorld (runAll listEnv lexWorld) rfl (by decide)

/-- A database with version 2 applied whose script file was edited afterwards
(recorded checksum `B`, current content `B2`), plus a new pending script for
version 3. -/
def driftWorld : World (List String) :=
  ⟨⟨some [⟨"002_b.sql", "B2"⟩, ⟨"003_c.sql", "C"⟩], []⟩, ⟨true, [⟨2, "002_b.sql", "B"⟩], ["B"]⟩⟩

/-- C4: the claim says that after an applied script drifts, `applyPending`
refuses to proceed past that version, so an `up` with a newer pending version
fails before touching it.  The code's `runAll` never consults checksums of
already-applied scripts — applied versions are excluded from the pending set —
so on `driftWorld` (version 2 drifted, version 3 new) the run succeeds and
applies version 3, even though `validate` on the same state throws. -/
theorem runAll_proceeds_past_checksum_drift :
    (runAll listEnv driftWorld).error = none ∧
    (runAll listEnv driftWorld).executed = [3] ∧
    (validate listEnv driftWorld).result = .error "Migration validation failed" := by decide

/-- C4 (amended): when exactly one applied script has drifted (every other
ledger entry still checks out), `validate` reports exactly one checksum
violation — for that version, with the recorded and recomputed digests — and
throws `Migration validation failed`; but `applyPending` performs no such
check: on the concrete drifted catalog with a newer pending version 3, the
run succeeds and applies version 3. -/
theorem validate_one_violation_up_ignores_drift {σ : Type} (env : Env σ) (w : World σ)
    (L1 L2 : List Migration) (r : Migration) (c : String)
    (hsplit : w.db.ledger.insertionSort byVersion = L1 ++ r :: L2)
    (hok1 : ∀ x ∈ L1, checkMigration env w.fs x = none)
    (hok2 : ∀ x ∈ L2, checkMigration env w.fs x = none)
    (hread : readFile w.fs r.name = some c)
    (hdrift : env.sha256 c ≠ r.checksum) :
    ((validate env w).violations =
      [.checksumMismatch r.version r.name r.checksum (env.sha256 c)] ∧
     (validate env w).result = .error "Migration validation failed") ∧
    ((runAll listEnv driftWorld).error = none ∧
     (runAll listEnv driftWorld).executed = [3]) := by
  refine ⟨?_, by decide⟩
  have hcheck : checkMigration env (ensureLedgerTable w).fs r =
      some (.checksumMismatch r.version r.name r.checksum (env.sha256 c)) := by
    unfold checkMigration
    rw [show readFile (ensureLedgerTable w).fs r.name = some c from hread]
    dsimp only
    rw [if_pos (by simp [bne_iff_ne, hdrift])]
  have hok1' : ∀ x ∈ L1, checkMigration env (ensureLedgerTable w).fs x = none := hok1
  have hok2' : ∀ x ∈ L2, checkMigration env (ensureLedgerTable w).fs x = none := hok2
  have hsplit' : (ensureLedgerTable w).db.ledger.insertionSort byVersion = L1 ++ r :: L2 :=
    hsplit
  unfold validate
  dsimp only
  rw [getAppliedMigrations_of_exists _ rfl]
  dsimp only
  rw [hsplit']
  rw [List.filterMap_append, List.filterMap_eq_nil_iff.mpr hok1']
  rw [List.filterMap_cons, hcheck]
  dsimp only
  rw [List.filterMap_eq_nil_iff.mpr hok2']
  rw [if_neg (by simp)]
  constructor
  · simp
  · rfl

/-- Witness: the drift theorem at the concrete drifted catalog itself. -/
theorem validate_one_violation_up_ignores_drift_witness :
    ((validate listEnv driftWorld).violations =
      [.checksumMismatch 2 "002_b.sql" "B" "B2"] ∧
     (validate listEnv driftWorld).result = .error "Migration validation failed") ∧
    ((runAll listEnv driftWorld).error = none ∧
     (runAll listEnv driftWorld).executed = [3]) :=
  validate_one_violation_up_ignores_drift listEnv driftWorld [] [] ⟨2, "002_b.sql", "B"⟩ "B2"
    (by decide) (by intro x hx; cases hx) (by intro x hx; cases hx) (by decide) (by decide)


/-- C7: on a fully-applied catalog (no pending work), rolling back the latest
migration and immediately re-running `applyPending` restores the datastore to
the prior committed state and the ledger to its prior content
version-for-version: the rollback succeeds, the re-run succeeds, the final
user schema equals the original one, and the version-sorted ledger rows
(version, name, checksum) equal the original sorted rows exactly.
Hypotheses: the ledger table exists and its versions are duplicate-free; the
sorted ledger ends in the highest entry `r`; the catalog parses to descriptors
whose versions are all applied, with exactly one descriptor — `r`'s own
script — carrying `r`'s version; `r`'s script is unmodified on disk; its
paired rollback script exists and undoes it (executing the rollback script
then re-executing the forward script returns the schema to where it was). -/
theorem rollback_then_apply_restores {σ : Type} (env : Env σ) (w : World σ)
    (fl : List ScriptFile) (ds : List Descriptor) (L : List Migration) (r : Migration)
    (c rc : String) (s' : σ)
    (hex : w.db.ledgerExists = true)
    (hfiles : w.fs.files = some fl)
    (htds : toDescriptors (listMigrationFiles fl) = .ok ds)
    (hsort : w.db.ledger.insertionSort byVersion = L ++ [r])
    (hnd : (w.db.ledger.map (fun x => x.version)).Nodup)
    (hcov : ∀ d ∈ ds, ∃ x ∈ w.db.ledger, x.version = d.version)
    (hone : ds.filter (fun d => d.version == r.version) = [⟨r.name, r.version⟩])
    (hread : readFile w.fs r.name = some c)
    (hhash : env.sha256 c = r.checksum)
    (hrb : readRollbackFile w.fs (rollbackName r.name) = some rc)
    (hinv : env.exec rc w.db.schema = .ok s')
    (hfwd : env.exec c s' = .ok w.db.schema) :
    (rollback env w none).2 = .ok () ∧
    (runAll env (rollback env w none).1).error = none ∧
    (runAll env (rollback env w none).1).world.db.schema = w.db.schema ∧
    (runAll env (rollback env w none).1).world.db.ledger.insertionSort byVersion
      = L ++ [r] := by
  -- Step 1: the rollback itself.
  have hroll : rollback env w none =
      ({ w with db := { w.db with
          schema := s',
          ledger := w.db.ledger.filter (fun x => !(x.version == r.version)) } }, .ok ()) := by
    unfold rollback
    rw [getAppliedMigrations_of_exists _ hex]
    dsimp only
    rw [hsort]
    rw [if_neg (by simp [List.isEmpty_iff])]
    rw [show (if truthy none then (L ++ [r]).find?
          (fun m => m.version == (none : Option Nat).getD 0)
        else (L ++ [r]).getLast?) = (L ++ [r]).getLast? from rfl]
    rw [List.getLast?_concat]
    dsimp only
    rw [hrb]
    dsimp only
    rw [hinv]
  rw [hroll]
  dsimp only
  refine ⟨rfl, ?_⟩
  -- Notation for the post-rollback ledger.
  have hrs : r ∈ w.db.ledger.insertionSort byVersion := by
    rw [hsort]
    exact List.mem_append_right _ (List.mem_cons_self _ _)
  have hrmem : r ∈ w.db.ledger :=
    ((List.perm_insertionSort byVersion w.db.ledger).mem_iff).mp hrs
  obtain ⟨A, B, hAB⟩ := List.append_of_mem hrmem
  have hfilter : w.db.ledger.filter (fun x => !(x.version == r.version)) = A ++ B :=
    filter_out_unique_version w.db.ledger A B r hAB hnd
  -- Step 2: the second discovery returns exactly r's own descriptor.
  have hfindnone : (w.db.ledger.filter (fun x => !(x.version == r.version))).find?
      (fun x => x.version == r.version) = none := by
    rw [List.find?_eq_none]
    intro x hx
    have hxf := (List.mem_filter.mp hx).2
    simp only [Bool.not_eq_true'] at hxf
    simp [hxf]
  have hpq : ∀ d ∈ ds,
      (!((((w.db.ledger.filter (fun x => !(x.version == r.version))).insertionSort
            byVersion).map (fun x => x.version)).contains d.version)) =
      (d.version == r.version) := by
    intro d hd
    by_cases hdv : d.version = r.version
    · have hnc : (((w.db.ledger.filter (fun x => !(x.version == r.version))).insertionSort
          byVersion).map (fun x => x.version)).contains d.version = false := by
        cases hc : (((w.db.ledger.filter (fun x => !(x.version == r.version))).insertionSort
            byVersion).map (fun x => x.version)).contains d.version with
        | false => rfl
        | true =>
          exfalso
          obtain ⟨x, hxs, hxv⟩ := List.mem_map.mp (mem_of_contains hc)
          have hxF : x ∈ w.db.ledger.filter (fun x => !(x.version == r.version)) :=
            ((List.perm_insertionSort byVersion _).mem_iff).mp hxs
          have hxne := (List.mem_filter.mp hxF).2
          rw [hxv, hdv] at hxne
          simp at hxne
      rw [hnc, hdv]
      simp
    · obtain ⟨x, hx, hxv⟩ := hcov d hd
      have hxF : x ∈ w.db.ledger.filter (fun x => !(x.version == r.version)) := by
        rw [List.mem_filter]
        refine ⟨hx, ?_⟩
        rw [hxv]
        simpa using hdv
      have hxs : x ∈ (w.db.ledger.filter (fun x => !(x.version == r.version))).insertionSort
          byVersion :=
        ((List.perm_insertionSort byVersion _).mem_iff).mpr hxF
      have hcon := contains_of_mem (a := d.version)
        (by rw [← hxv]; exact List.mem_map_of_mem (fun x => x.version) hxs)
      rw [hcon]
      simp [hdv]
  -- Step 3: compute the second discovery.
  have hpend2 : getPendingMigrations
      ({ w with db := { w.db with
          schema := s',
          ledger := w.db.ledger.filter (fun x => !(x.version == r.version)) } } : World σ) =
      ({ w with db := { w.db with
          schema := s',
          ledger := w.db.ledger.filter (fun x => !(x.version == r.version)) } },
       .ok [⟨r.name, r.version⟩]) := by
    unfold getPendingMigrations
    rw [show ({ w with db := { w.db with
        schema := s',
        ledger := w.db.ledger.filter (fun x => !(x.version == r.version)) } } :
          World σ).fs.files = some fl from hfiles]
    dsimp only
    rw [getAppliedMigrations_of_exists _ (show ({ w with db := { w.db with
        schema := s',
        ledger := w.db.ledger.filter (fun x => !(x.version == r.version)) } } :
          World σ).db.ledgerExists = true from hex)]
    dsimp only
    rw [htds]
    dsimp only
    rw [List.filter_congr hpq, hone]
  -- Step 4: compute the re-application of r's own script.
  have happm : applyMigration env
      ({ w with db := { w.db with
          schema := s',
          ledger := w.db.ledger.filter (fun x => !(x.version == r.version)) } })
      ⟨r.name, r.version⟩ =
      ({ w with db := { w.db with
          schema := w.db.schema,
          ledger := w.db.ledger.filter (fun x => !(x.version == r.version)) ++ [r] } },
       .ok true) := by
    unfold applyMigration
    rw [show readFile ({ w with db := { w.db with
        schema := s',
        ledger := w.db.ledger.filter (fun x => !(x.version == r.version)) } } :
          World σ).fs (⟨r.name, r.version⟩ : Descriptor).filename = some c from hread]
    dsimp only
    unfold getExisting
    dsimp only
    rw [hex]
    dsimp only
    rw [hfindnone]
    dsimp only
    rw [show env.exec c s' = .ok w.db.schema from hfwd]
    dsimp only
    rw [hhash]
  -- Step 5: the loop and the run.
  have happl : applyList env
      ({ w with db := { w.db with
          schema := s',
          ledger := w.db.ledger.filter (fun x => !(x.version == r.version)) } })
      [⟨r.name, r.version⟩] =
      ({ w with db := { w.db with
          schema := w.db.schema,
          ledger := w.db.ledger.filter (fun x => !(x.version == r.version)) ++ [r] } },
       [r.version], none) := by
    rw [applyList_cons, happm]
    dsimp only
    simp [applyList]
  have hrun : runAll env
      ({ w with db := { w.db with
          schema := s',
          ledger := w.db.ledger.filter (fun x => !(x.version == r.version)) } }) =
      ⟨({ w with db := { w.db with
          schema := w.db.schema,
          ledger := w.db.ledger.filter (fun x => !(x.version == r.version)) ++ [r] } }),
       [r.version], none, false⟩ := by
    unfold runAll
    dsimp only
    rw [ensureLedgerTable_of_exists _ (show ({ w with db := { w.db with
        schema := s',
        ledger := w.db.ledger.filter (fun x => !(x.version == r.version)) } } :
          World σ).db.ledgerExists = true from hex)]
    rw [hpend2]
    dsimp only
    rw [if_neg (by simp)]
    rw [happl]
  rw [hrun]
  dsimp only
  refine ⟨rfl, rfl, ?_⟩
  -- Step 6: the re-inserted row restores the sorted ledger verbatim.
  have hperm : List.Perm w.db.ledger
      (w.db.ledger.filter (fun x => !(x.version == r.version)) ++ [r]) := by
    rw [hfilter]
    rw [hAB]
    have h2 := (List.perm_append_singleton r B).symm
    have h3 := List.Perm.append_left A h2
    rw [List.append_assoc]
    exact h3
  have hsame := insertionSort_eq_of_perm w.db.ledger
    (w.db.ledger.filter (fun x => !(x.version == r.version)) ++ [r]) hperm hnd
  rw [← hsame, hsort]

/-- Collaborators where the statement `UNDO` reverses the last applied
statement: used to witness the rollback/re-apply round trip. -/
def undoEnv : Env (List String) :=
  ⟨fun s => s, fun s l => if s = "UNDO" then .ok l.dropLast else .ok (l ++ [s])⟩

/-- Two applied migrations, fully recorded, with a rollback script for the
latest one that exactly undoes it. -/
def restoreWorld : World (List String) :=
  ⟨⟨some [⟨"001_a.sql", "A"⟩, ⟨"002_b.sql", "B"⟩],
    [⟨"002_b.rollback.sql", "UNDO"⟩]⟩,
   ⟨true, [⟨1, "001_a.sql", "A"⟩, ⟨2, "002_b.sql", "B"⟩], ["A", "B"]⟩⟩

/-- Witness: the round trip at a concrete two-migration database. -/
theorem rollback_then_apply_restores_witness :
    (rollback undoEnv restoreWorld none).2 = .ok () ∧
    (runAll undoEnv (rollback undoEnv restoreWorld none).1).error = none ∧
    (runAll undoEnv (rollback undoEnv restoreWorld none).1).world.db.schema = ["A", "B"] ∧
    (runAll undoEnv
        (rollback undoEnv restoreWorld none).1).world.db.ledger.insertionSort byVersion
      = [⟨1, "001_a.sql", "A"⟩] ++ [⟨2, "002_b.sql", "B"⟩] :=
  rollback_then_apply_restores undoEnv restoreWorld
    [⟨"001_a.sql", "A"⟩, ⟨"002_b.sql", "B"⟩]
    [⟨"001_a.sql", 1⟩, ⟨"002_b.sql", 2⟩]
    [⟨1, "001_a.sql", "A"⟩] ⟨2, "002_b.sql", "B"⟩
    "B" "UNDO" ["A"]
    rfl (by decide) (by decide) (by decide) (by decide) (by decide) (by decide)
    (by decide) rfl (by decide) (by decide) (by decide)
